import Mathlib

/-!
Shallow embedding of the Remote Session Pool and Tunnel Supervisor of the
gpu-server-manager repository:
  * `app/services/ssh_manager.py`  (class `SSHConnectionPool`)
  * `app/services/port_forward.py` (class `PortForwardManager`)
  * `config/constants.py`          (class `PortRange`)

Python dictionaries are modelled as association lists, machine-level
side effects (the liveness probe, `client.connect`, `exec_command`,
the OS bind test) as oracle parameters, and the two `threading.Lock`s
explicitly where a claim depends on them.  Ghost instrumentation
(creation counters, worker progress flags) is marked as such in the
comments; it never influences the modelled control flow.
-/

namespace GpuServerManager

/-! ### `config/constants.py`, class `PortRange` -/

namespace PortRange

/-- `PortRange.FORWARD_START = 16006`. -/
def FORWARD_START : Nat := 16006

/-- `PortRange.FORWARD_MAX = 20000`. -/
def FORWARD_MAX : Nat := 20000

end PortRange

/-! ### Server descriptors (entries of `SSHConnectionPool.servers`) -/

/-- One server configuration dictionary.  A Python dictionary key that may
be absent is an `Option`; `none` means the key is not present. -/
structure ServerConfig where
  host : String
  port : Nat := 22
  username : String
  password : Option String := none
  key_file : Option String := none
deriving DecidableEq, Repr

/-- Python truthiness of an optional string value (`server_config['key_file']`
both present and non-empty, as tested by `_forward_worker`). -/
def truthyS : Option String → Bool
  | none => false
  | some s => decide (s ≠ "")

/-- Association-list lookup, the model of `dict.get` / `in` on a
string-keyed Python dictionary. -/
def lookupS {α : Type} (l : List (String × α)) (k : String) : Option α :=
  (l.find? (fun kv => kv.1 == k)).map (·.2)

/-- Association-list lookup for `Nat`-keyed maps. -/
def lookupN {α : Type} (l : List (Nat × α)) (k : Nat) : Option α :=
  (l.find? (fun kv => kv.1 == k)).map (·.2)

/-- `del d[k]` on a string-keyed dictionary. -/
def eraseS {α : Type} (l : List (String × α)) (k : String) : List (String × α) :=
  l.filter (fun kv => !(kv.1 == k))

/-! ### `SSHConnectionPool` state and environment -/

/-- The mutable state of `SSHConnectionPool` that the claims touch.
Connection handles (`paramiko.SSHClient` objects) are abstracted to the
`Nat` identity of the object; `next_handle` and `create_attempts` are
ghost counters (fresh object ids, and the number of `_create_connection`
calls that passed the server-existence check — the "creation counter" of
the spec's tests). -/
structure PoolState where
  servers : List (String × ServerConfig) := []
  connections : List (String × Nat) := []
  next_handle : Nat := 0
  create_attempts : Nat := 0
deriving DecidableEq, Repr

/-- Outcome of a completed remote command (`exec_command` plus the
`recv_exit_status`/`read` calls). -/
structure ExecInfo where
  exit_code : Int
  stdout : String
  stderr : String
deriving DecidableEq, Repr

/-- The result dictionary produced by `execute_command`. -/
structure ExecResult where
  success : Bool
  stdout : String
  stderr : String
  exit_code : Int
deriving DecidableEq, Repr

/-- Oracle for the machine-level effects of one `SSHConnectionPool` call:
whether the liveness probe of a cached handle succeeds, whether
`client.connect` succeeds, and what the main `exec_command` of
`execute_command` yields (`Except.error` models a raised exception whose
message is the string). -/
structure SSHEnv where
  probeOk : Nat → Bool
  connectOk : Bool
  execOutcome : Except String ExecInfo

/-- `SSHConnectionPool._create_connection` (ssh_manager.py lines 326-365).
The `ValueError` raised for an unknown server name stands *outside* the
`try` block and therefore propagates (`Except.error`); every failure
inside the `try` — including the missing-credentials `ValueError` — is
caught and turned into `return None`.  The ghost counter
`create_attempts` ticks once per call that passes the existence check. -/
def create_connection (env : SSHEnv) (s : PoolState) (name : String) :
    Except String (Option Nat × PoolState) :=
  match lookupS s.servers name with
  | none => .error ("服务器 " ++ name ++ " 不存在")
  | some cfg =>
    let s1 := { s with create_attempts := s.create_attempts + 1 }
    if cfg.key_file.isSome ∨ cfg.password.isSome then
      if env.connectOk then
        .ok (some s1.next_handle, { s1 with next_handle := s1.next_handle + 1 })
      else
        .ok (none, s1)
    else
      .ok (none, s1)

/-- `SSHConnectionPool.get_connection` (ssh_manager.py lines 367-398).
If a cached handle exists and its liveness probe (`echo test` plus a
full drain of both streams) succeeds it is returned unchanged; on probe
failure the stale handle is closed, deleted from the map, and a single
`_create_connection` attempt follows; a successful creation is inserted
into the map.  The whole body runs under `self.lock`. -/
def get_connection (env : SSHEnv) (s : PoolState) (name : String) :
    Except String (Option Nat × PoolState) :=
  let fresh (s1 : PoolState) : Except String (Option Nat × PoolState) :=
    match create_connection env s1 name with
    | .error e => .error e
    | .ok (none, s2) => .ok (none, s2)
    | .ok (some h, s2) =>
        .ok (some h, { s2 with connections := s2.connections ++ [(name, h)] })
  match lookupS s.connections name with
  | some h =>
      if env.probeOk h then .ok (some h, s)
      else fresh { s with connections := eraseS s.connections name }
  | none => fresh s

/-- `SSHConnectionPool.execute_command` (ssh_manager.py lines 479-515).
`get_connection` is called *before* the `try` block, so an exception it
raises propagates to the caller; everything raised inside the `try`
becomes the `success=False, exit_code=-1` dictionary. -/
def execute_command (env : SSHEnv) (s : PoolState) (name cmd : String) :
    Except String (ExecResult × PoolState) :=
  match get_connection env s name with
  | .error e => .error e
  | .ok (none, s1) =>
      .ok ({ success := false, stdout := "", stderr := "无法连接到服务器",
             exit_code := -1 }, s1)
  | .ok (some _, s1) =>
      match env.execOutcome with
      | .ok info =>
          .ok ({ success := decide (info.exit_code = 0), stdout := info.stdout,
                 stderr := info.stderr, exit_code := info.exit_code }, s1)
      | .error e =>
          .ok ({ success := false, stdout := "", stderr := e,
                 exit_code := -1 }, s1)

/-! ### `PortForwardManager` state -/

/-- The status strings of a forward dictionary. -/
inductive FwdStatus
  | starting
  | running
  | stopping
  | stopped
  | error
deriving DecidableEq, Repr

/-- The spec calls `starting`, `running` and `stopping` non-terminal. -/
def FwdStatus.nonTerminal : FwdStatus → Bool
  | .starting => true
  | .running => true
  | .stopping => true
  | .stopped => false
  | .error => false

/-- One `forward_info` dictionary.  Timestamps are abstract `Nat` clock
readings.  `wFinished` and `wReleased` are ghost flags recording the
progress of the forward's worker thread (`finally` block entered;
`_release_reserved_port` performed); they never influence any modelled
computation, only the enabledness of worker steps. -/
structure ForwardInfo where
  server_name : String
  name : String
  remote_port : Nat
  local_port : Nat
  tool_type : String
  status : FwdStatus
  created_at : Nat
  stopped_at : Option Nat := none
  error : Option String := none
  wFinished : Bool := false
  wReleased : Bool := false
deriving DecidableEq, Repr

/-- The mutable state of `PortForwardManager`.  Forward ids are modelled
by the value of `forward_counter` used to build them: the Python id
`f"fwd_{counter}_{int(time.time())}"` embeds a strictly increasing
counter, so the counter value determines the id.  `stop_inflight` is a
ghost record of the one multi-step locked section (a `stop_forward` call
between its `stopping` and `stopped` writes) — every other locked region
is modelled as a single atomic step. -/
structure PFState where
  forwards : List (Nat × ForwardInfo) := []
  forward_counter : Nat := 0
  reserved_ports : List Nat := []
  stop_inflight : Option Nat := none
deriving DecidableEq, Repr

/-- The freshly constructed manager (`PortForwardManager.__init__`). -/
def pfInit : PFState := {}

/-- Point update of one forward dictionary (`self.forwards[forward_id]`
mutation). -/
def updateFwd (s : PFState) (fid : Nat) (g : ForwardInfo → ForwardInfo) : PFState :=
  { s with forwards := s.forwards.map fun kv => if kv.1 = fid then (kv.1, g kv.2) else kv }

/-- `self.forwards.get(forward_id)`. -/
def getFwd (s : PFState) (fid : Nat) : Option ForwardInfo :=
  lookupN s.forwards fid

/-- `PortForwardManager._is_port_available` (port_forward.py lines
117-135): refuse a port already in `_reserved_ports`, then a port whose
descriptor is `running` or `starting`, then one that fails the OS-level
bind test (the oracle `bindOk`). -/
def is_port_available (bindOk : Nat → Bool) (s : PFState) (port : Nat) : Bool :=
  if port ∈ s.reserved_ports then false
  else if s.forwards.any (fun kv =>
      decide (kv.2.local_port = port ∧
        (kv.2.status = .running ∨ kv.2.status = .starting))) then false
  else bindOk port

/-- The scan of `_find_and_reserve_port`: the first available port in
`FORWARD_START..FORWARD_MAX`. -/
def scan_ports (bindOk : Nat → Bool) (s : PFState) : Option Nat :=
  (List.range' PortRange.FORWARD_START
      (PortRange.FORWARD_MAX + 1 - PortRange.FORWARD_START)).find?
    (is_port_available bindOk s)

/-- `PortForwardManager._find_and_reserve_port` (lines 137-163).  The
`MAX_PORT_RETRY` loop re-scans while the state is unchanged (the caller
holds `self.lock` throughout and the bind-test oracle is fixed for the
call), so its result equals that of a single scan; a found port is added
to `_reserved_ports` at once. -/
def find_and_reserve_port (bindOk : Nat → Bool) (s : PFState) :
    Option (Nat × PFState) :=
  match scan_ports bindOk s with
  | some p => some (p, { s with reserved_ports := p :: s.reserved_ports })
  | none => none

/-- The value returned by `create_forward` (`success`/`error` keys plus
the id of the embedded `forward_info`). -/
structure CreateOutcome where
  success : Bool
  error : Option String := none
  forward_id : Option Nat := none
deriving DecidableEq, Repr

/-- The descriptor-construction tail of `create_forward` (counter
increment, new `forward_info` in state `starting`, worker thread start). -/
def mk_forward (now : Nat) (s : PFState) (server_name name : String)
    (remote_port local_port : Nat) (tool_type : String) :
    CreateOutcome × PFState :=
  let c := s.forward_counter + 1
  let info : ForwardInfo :=
    { server_name := server_name, name := name, remote_port := remote_port,
      local_port := local_port, tool_type := tool_type, status := .starting,
      created_at := now }
  ({ success := true, forward_id := some c },
   { s with forward_counter := c, forwards := s.forwards ++ [(c, info)] })

/-- `PortForwardManager.create_forward` (lines 37-115).  The whole body
holds `self.lock`.  Note that the server name is *not* resolved against
`ssh_pool.servers` here — the worker thread does that later. -/
def create_forward (bindOk : Nat → Bool) (now : Nat) (s : PFState)
    (server_name name : String) (remote_port : Nat) (local_port : Option Nat)
    (tool_type : String) : CreateOutcome × PFState :=
  match local_port with
  | none =>
    match find_and_reserve_port bindOk s with
    | none => ({ success := false, error := some "无法分配可用端口，请稍后重试" }, s)
    | some (p, s1) => mk_forward now s1 server_name name remote_port p tool_type
  | some p =>
    if is_port_available bindOk s p then
      mk_forward now { s with reserved_ports := p :: s.reserved_ports }
        server_name name remote_port p tool_type
    else
      ({ success := false, error := some ("本地端口 " ++ toString p ++ " 已被占用") }, s)

/-- First half of the `running` branch of `stop_forward`: the
`status = 'stopping'` write, performed holding `self.lock`
(`stop_inflight` records that the lock is still held). -/
def stop_begin (s : PFState) (fid : Nat) : PFState :=
  { updateFwd s fid (fun g => { g with status := .stopping }) with
    stop_inflight := some fid }

/-- Second half of the `running` branch of `stop_forward`: after the
process terminate / 3-second wait / thread sleep, the
`status = 'stopped'` and `stopped_at` writes, then the lock release. -/
def stop_end (now : Nat) (s : PFState) (fid : Nat) : PFState :=
  { updateFwd s fid (fun g => { g with status := .stopped, stopped_at := some now }) with
    stop_inflight := none }

/-- `PortForwardManager.stop_forward` (lines 295-329) as experienced by
the calling thread.  `lockHeld` is true when the caller already holds
the non-reentrant `self.lock` (the `delete_forward` body): the opening
`with self.lock` then blocks forever, modelled as `none`. -/
def stop_forward_impl (lockHeld : Bool) (now : Nat) (s : PFState) (fid : Nat) :
    Option (Bool × PFState) :=
  if lockHeld then none
  else
    match getFwd s fid with
    | none => some (false, s)
    | some f =>
      if f.status = .running then
        some (true, stop_end now (stop_begin s fid) fid)
      else
        some (true, s)

/-- `stop_forward` called from a thread that does not hold `self.lock`. -/
def stop_forward (now : Nat) (s : PFState) (fid : Nat) : Option (Bool × PFState) :=
  stop_forward_impl false now s fid

/-- `PortForwardManager.delete_forward` (lines 346-368).  The body holds
`self.lock` and, for a present id, calls `stop_forward`, which
re-acquires the same non-reentrant lock. -/
def delete_forward (now : Nat) (s : PFState) (fid : Nat) : Option (Bool × PFState) :=
  if (getFwd s fid).isSome then
    match stop_forward_impl true now s fid with
    | none => none
    | some (_, s1) =>
        some (true, { s1 with forwards := s1.forwards.filter (fun kv => !(kv.1 == fid)) })
  else
    some (false, s)

/-- `PortForwardManager.list_forwards` (lines 336-344). -/
def list_forwards (s : PFState) (server_name : Option String) : List ForwardInfo :=
  match server_name with
  | some sn => (s.forwards.filter (fun kv => kv.2.server_name == sn)).map (·.2)
  | none => s.forwards.map (·.2)

/-! ### The worker thread (`_forward_worker`, lines 187-293), as atomic steps -/

/-- The worker's server-configuration resolution (lines 200-210): a
missing entry raises, which the `except` branch converts to descriptor
state. -/
def worker_resolve (servers : List (String × ServerConfig)) (name : String) :
    Except String ServerConfig :=
  match lookupS servers name with
  | none => .error ("未找到服务器配置: " ++ name)
  | some cfg => .ok cfg

/-- The base `ssh` argument list built at lines 213-223. -/
def build_ssh_command (cfg : ServerConfig) (local_port remote_port : Nat) :
    List String :=
  ["ssh", "-N",
   "-L", toString local_port ++ ":localhost:" ++ toString remote_port,
   "-o", "StrictHostKeyChecking=accept-new",
   "-o", "ServerAliveInterval=60",
   "-o", "ServerAliveCountMax=3",
   "-o", "BatchMode=yes",
   "-p", toString cfg.port,
   cfg.username ++ "@" ++ cfg.host]

/-- The authentication dispatch at lines 234-243: key file preferred
(appended `-i` argument); otherwise a password goes *only* into the
`SSHPASS` environment variable (second component) while the argument
list is prefixed with `sshpass -e`; neither present raises. -/
def worker_auth (cfg : ServerConfig) (local_port remote_port : Nat) :
    Except String (List String × Option String) :=
  let base := build_ssh_command cfg local_port remote_port
  if truthyS cfg.key_file then
    .ok (base ++ ["-i", cfg.key_file.getD ""], none)
  else if truthyS cfg.password then
    .ok (["sshpass", "-e"] ++ base, some (cfg.password.getD ""))
  else
    .error "服务器未配置认证信息（密码或密钥）"

/-- Worker step: the `status = 'running'` write at line 245 (performed
without the lock, while the descriptor is still `starting`). -/
def worker_set_running (s : PFState) (fid : Nat) : PFState :=
  updateFwd s fid fun g => { g with status := .running }

/-- Worker step: the `except` branch (lines 273-281) — `status = 'error'`
plus the error message, written without the lock. -/
def worker_error (msg : String) (s : PFState) (fid : Nat) : PFState :=
  updateFwd s fid fun g => { g with status := .error, error := some msg }

/-- Worker step: the lock-free part of the `finally` block (lines
283-290): record `stopped_at`, turn a still-`running` status into
`stopped`.  The ghost flag `wFinished` marks that the block ran. -/
def worker_finalize (now : Nat) (s : PFState) (fid : Nat) : PFState :=
  updateFwd s fid fun g =>
    { g with stopped_at := some now,
             status := if g.status = .running then .stopped else g.status,
             wFinished := true }

/-- Worker step: `_release_reserved_port(local_port)` at line 293,
which acquires `self.lock` and discards the port from the reservation
set.  The ghost flag `wReleased` marks the (unique) release. -/
def worker_release (s : PFState) (fid : Nat) : PFState :=
  match getFwd s fid with
  | none => s
  | some f =>
    let s1 := updateFwd s fid fun g => { g with wReleased := true }
    { s1 with reserved_ports := s1.reserved_ports.erase f.local_port }

/-! ### The interleaved step relation of the manager

Locked sections are atomic steps and require the lock to be free
(`stop_inflight = none`); the worker's lock-free dictionary writes may
interleave anywhere.  The enabledness conditions of the worker steps are
exactly the program order of `_forward_worker`: `running` is written
once while the descriptor is `starting`; the `except` branch and the
`finally` block run before the release; the `finally` block runs after
either the `except` branch or the `running` write (so never on a
`starting` descriptor); the release runs last, exactly once, under the
lock.  `delete_forward` on a present id never completes (it deadlocks,
see `delete_forward`), so it contributes no step; on an absent id it is
the identity. -/
inductive Step (bindOk : Nat → Bool) : PFState → PFState → Prop
  | createAuto (now : Nat) (sn nm tt : String) (rp : Nat) (s : PFState)
      (hl : s.stop_inflight = none) :
      Step bindOk s (create_forward bindOk now s sn nm rp none tt).2
  | createExplicit (now : Nat) (sn nm tt : String) (rp p : Nat) (s : PFState)
      (hl : s.stop_inflight = none) :
      Step bindOk s (create_forward bindOk now s sn nm rp (some p) tt).2
  | setRunning (s : PFState) (fid : Nat) (f : ForwardInfo)
      (hf : getFwd s fid = some f) (hst : f.status = .starting) :
      Step bindOk s (worker_set_running s fid)
  | wError (msg : String) (s : PFState) (fid : Nat) (f : ForwardInfo)
      (hf : getFwd s fid = some f) (hfin : f.wFinished = false) :
      Step bindOk s (worker_error msg s fid)
  | wFinalize (now : Nat) (s : PFState) (fid : Nat) (f : ForwardInfo)
      (hf : getFwd s fid = some f) (hst : f.status ≠ .starting)
      (hfin : f.wFinished = false) :
      Step bindOk s (worker_finalize now s fid)
  | wRelease (s : PFState) (fid : Nat) (f : ForwardInfo)
      (hf : getFwd s fid = some f) (hfin : f.wFinished = true)
      (hrel : f.wReleased = false) (hl : s.stop_inflight = none) :
      Step bindOk s (worker_release s fid)
  | stopBegin (s : PFState) (fid : Nat) (f : ForwardInfo)
      (hf : getFwd s fid = some f) (hst : f.status = .running)
      (hl : s.stop_inflight = none) :
      Step bindOk s (stop_begin s fid)
  | stopEnd (now : Nat) (s : PFState) (fid : Nat)
      (hl : s.stop_inflight = some fid) :
      Step bindOk s (stop_end now s fid)
  | stopNotRunning (now : Nat) (s : PFState) (fid : Nat) (f : ForwardInfo)
      (hf : getFwd s fid = some f) (hst : f.status ≠ .running)
      (hl : s.stop_inflight = none) :
      Step bindOk s s
  | deleteAbsent (s : PFState) (fid : Nat) (hf : getFwd s fid = none)
      (hl : s.stop_inflight = none) :
      Step bindOk s s

/-! ### Invariants -/

/-- The local ports of the forwards whose worker has not yet released
its reservation. -/
def uports (s : PFState) : List Nat :=
  (s.forwards.filter (fun kv => kv.2.wReleased == false)).map (fun kv => kv.2.local_port)

/-- The ports of the non-terminal (`starting`/`running`/`stopping`)
forwards — the subject of the spec's port-uniqueness invariant. -/
def ntports (s : PFState) : List Nat :=
  (s.forwards.filter (fun kv => kv.2.status.nonTerminal)).map (fun kv => kv.2.local_port)

/-- The inductive invariant of `PortForwardManager`. -/
structure Inv (s : PFState) : Prop where
  keys_nodup : (s.forwards.map (·.1)).Nodup
  keys_le : ∀ kv ∈ s.forwards, kv.1 ≤ s.forward_counter
  resv_nodup : s.reserved_ports.Nodup
  resv_mem : ∀ kv ∈ s.forwards, kv.2.wReleased = false →
    kv.2.local_port ∈ s.reserved_ports
  uports_nodup : (uports s).Nodup
  nonterm_unrel : ∀ kv ∈ s.forwards, kv.2.status.nonTerminal = true →
    kv.2.wReleased = false
  stopping_infl : ∀ kv ∈ s.forwards, kv.2.status = .stopping →
    s.stop_inflight = some kv.1
  fin_status : ∀ kv ∈ s.forwards, kv.2.wFinished = true →
    kv.2.status ≠ .starting ∧ kv.2.status ≠ .running

/-- A back-to-back sequence of `n` automatic-port `create_forward`
calls, recording the local port of each created forward (`none` for a
failed call). -/
def create_seq (bindOk : Nat → Bool) (now : Nat) (sn nm tt : String) (rp : Nat) :
    Nat → PFState → List (Option Nat) × PFState
  | 0, s => ([], s)
  | n + 1, s =>
    let r := create_forward bindOk now s sn nm rp none tt
    let q := create_seq bindOk now sn nm tt rp n r.2
    ((scan_ports bindOk s) :: q.1, q.2)

/-! ### Lock/blocking-call traces (claim C8)

The concurrency claim "no lock is held across blocking I/O" is a
structural property of the straight-line bodies: each relevant method is
embedded as its sequence of atomic actions, each tagged as a lock
acquire, a lock release, a blocking call, or an ordinary step. -/

/-- One atomic action of a method body. -/
inductive TAct
  | acquire
  | release
  | blocking (what : String)
  | plain (what : String)

/-- Does some blocking action of the trace run while the acquire count
exceeds the release count (i.e. while a lock is held)? -/
def heldAcrossBlocking : Nat → List TAct → Bool
  | _, [] => false
  | d, .acquire :: tr => heldAcrossBlocking (d + 1) tr
  | d, .release :: tr => heldAcrossBlocking (d - 1) tr
  | d, .blocking _ :: tr => (decide (0 < d)) || heldAcrossBlocking d tr
  | d, .plain _ :: tr => heldAcrossBlocking d tr

/-- `PortForwardManager.stop_forward` (lines 295-329) as an action
trace: the whole body, including `process.terminate()`,
`process.wait(timeout=3)` and the `time.sleep(1)`, runs inside
`with self.lock`. -/
def stop_forward_trace : List TAct :=
  [.acquire,
   .plain "check forward_id in self.forwards",
   .plain "status = stopping",
   .blocking "process.terminate()",
   .blocking "process.wait(timeout=3)",
   .blocking "time.sleep(1) waiting for the worker thread",
   .plain "status = stopped; stopped_at = now()",
   .release]

/-- `SSHConnectionPool.get_connection` (lines 367-398) as an action
trace: the liveness probe (`exec_command('echo test')` plus the stream
drain) and the fresh `client.connect` of `_create_connection` both run
inside `with self.lock`. -/
def get_connection_trace : List TAct :=
  [.acquire,
   .plain "look up server_name in self.connections",
   .blocking "exec_command echo test and drain both streams",
   .plain "del self.connections[server_name] on probe failure",
   .blocking "client.connect(**connect_params) in _create_connection",
   .plain "self.connections[server_name] = client",
   .release]

/-- The post-`get_connection` part of `execute_command` (lines 499-508)
as an action trace: the main remote execution happens after
`get_connection` returned, with no lock held. -/
def execute_main_trace : List TAct :=
  [.plain "client returned by get_connection",
   .blocking "client.exec_command(command, timeout=timeout)",
   .blocking "recv_exit_status; stdout.read(); stderr.read()",
   .plain "build result dictionary"]

/-! ### Concrete states used by counterexamples and witnesses -/

/-- A forward descriptor in state `running` on local port 16006. -/
def cexInfo : ForwardInfo :=
  { server_name := "gpu", name := "tb", remote_port := 6006,
    local_port := 16006, tool_type := "custom", status := .running,
    created_at := 0 }

/-- A manager owning exactly the running forward `cexInfo` (id 1), whose
port is reserved — the state reached by one successful `create_forward`
plus the worker's `running` transition. -/
def cexS : PFState :=
  { forwards := [(1, cexInfo)], forward_counter := 1,
    reserved_ports := [16006] }

/-- A pool environment whose probes and connections all succeed and whose
remote command exits 0. -/
def envOk : SSHEnv :=
  { probeOk := fun _ => true, connectOk := true,
    execOutcome := .ok { exit_code := 0, stdout := "ok", stderr := "" } }

/-- A pool environment whose liveness probes all fail but whose fresh
connections succeed. -/
def envPF : SSHEnv :=
  { probeOk := fun _ => false, connectOk := true,
    execOutcome := .ok { exit_code := 0, stdout := "ok", stderr := "" } }

/-- A password-only server configuration. -/
def cfgW : ServerConfig :=
  { host := "h1", port := 22, username := "u", password := some "hunter2",
    key_file := none }

/-- A pool with one configured server and one cached handle for it. -/
def poolW : PoolState :=
  { servers := [("gpu", cfgW)], connections := [("gpu", 0)], next_handle := 1 }

end GpuServerManager

namespace GpuServerManager

/-! ## Helper lemmas -/

theorem lookupS_nil {α : Type} (k : String) : lookupS ([] : List (String × α)) k = none := rfl

theorem find?_key_map_update (l : List (Nat × ForwardInfo)) (fid j : Nat)
    (g : ForwardInfo → ForwardInfo) :
    (l.map fun kv => if kv.1 = fid then (kv.1, g kv.2) else kv).find?
        (fun kv => kv.1 == j) =
      if j = fid then
        (l.find? (fun kv => kv.1 == fid)).map (fun kv => (kv.1, g kv.2))
      else l.find? (fun kv => kv.1 == j) := by
  induction l with
  | nil => by_cases hj : j = fid <;> simp [hj]
  | cons kv tl ih =>
    by_cases hk : kv.1 = fid
    · by_cases hj : j = fid
      · subst hj
        simp [hk, List.find?_cons_of_pos]
      · have hkj : ¬ kv.1 = j := fun he => hj ((he.symm.trans hk))
        simp only [List.map_cons, if_pos hk]
        rw [if_neg hj, List.find?_cons_of_neg _ (by simpa using hkj),
          List.find?_cons_of_neg _ (by simpa using hkj), ih, if_neg hj]
    · by_cases hj3 : kv.1 = j
      · have hj : ¬ j = fid := fun he => hk (hj3.trans he)
        simp only [List.map_cons, if_neg hk, if_neg hj]
        rw [List.find?_cons_of_pos _ (by simp [hj3]),
          List.find?_cons_of_pos _ (by simp [hj3])]
      · simp only [List.map_cons, if_neg hk]
        rw [List.find?_cons_of_neg _ (by simp [hj3]), ih]
        by_cases hj : j = fid
        · subst hj
          rw [if_pos rfl, if_pos rfl, List.find?_cons_of_neg _ (by simp [hk])]
        · rw [if_neg hj, if_neg hj, List.find?_cons_of_neg _ (by simp [hj3])]

theorem getFwd_updateFwd (s : PFState) (fid j : Nat) (g : ForwardInfo → ForwardInfo) :
    getFwd (updateFwd s fid g) j =
      if j = fid then (getFwd s fid).map g else getFwd s j := by
  show ((s.forwards.map _).find? _).map _ = _
  rw [find?_key_map_update]
  by_cases hj : j = fid
  · subst hj
    rw [if_pos rfl, if_pos rfl]
    show _ = Option.map g ((s.forwards.find? _).map _)
    cases s.forwards.find? (fun kv => kv.1 == j) <;> rfl
  · rw [if_neg hj, if_neg hj]
    rfl

theorem updateFwd_forwards (s : PFState) (fid : Nat) (g : ForwardInfo → ForwardInfo) :
    (updateFwd s fid g).forwards =
      s.forwards.map fun kv => if kv.1 = fid then (kv.1, g kv.2) else kv := rfl

theorem updateFwd_keys (s : PFState) (fid : Nat) (g : ForwardInfo → ForwardInfo) :
    (updateFwd s fid g).forwards.map (·.1) = s.forwards.map (·.1) := by
  rw [updateFwd_forwards, List.map_map]
  apply List.map_congr_left
  intro kv _
  by_cases h : kv.1 = fid <;> simp [h]

theorem getFwd_mem {s : PFState} {fid : Nat} {f : ForwardInfo}
    (h : getFwd s fid = some f) : (fid, f) ∈ s.forwards := by
  unfold getFwd lookupN at h
  cases hf : s.forwards.find? (fun kv => kv.1 == fid) with
  | none => simp [hf] at h
  | some kv =>
    simp only [hf, Option.map_some', Option.some.injEq] at h
    have hmem := List.mem_of_find?_eq_some hf
    have hkey : kv.1 = fid := by simpa using List.find?_some hf
    have : (fid, f) = kv := by
      cases kv
      simp_all
    rw [this]
    exact hmem

theorem find?_key_of_mem {α : Type} {l : List (Nat × α)} {fid : Nat} {f : α}
    (hnd : (l.map (·.1)).Nodup) (h : (fid, f) ∈ l) :
    (l.find? (fun kv => kv.1 == fid)).map (·.2) = some f := by
  induction l with
  | nil => simp at h
  | cons kv tl ih =>
    simp only [List.map_cons, List.nodup_cons] at hnd
    rcases List.mem_cons.mp h with h1 | h1
    · rw [← h1,
        @List.find?_cons_of_pos _ (fun kv => kv.1 == fid) (fid, f) tl (beq_self_eq_true fid)]
      rfl
    · have hne : ¬ kv.1 = fid := by
        intro he
        exact hnd.1 (he ▸ (List.mem_map.mpr ⟨(fid, f), h1, rfl⟩))
      rw [List.find?_cons_of_neg _ (by simpa using hne)]
      exact ih hnd.2 h1

theorem getFwd_of_mem {s : PFState} {fid : Nat} {f : ForwardInfo}
    (hnd : (s.forwards.map (·.1)).Nodup) (h : (fid, f) ∈ s.forwards) :
    getFwd s fid = some f :=
  find?_key_of_mem hnd h

theorem claimed_any_iff (s : PFState) (p : Nat) :
    (s.forwards.any fun kv =>
        decide (kv.2.local_port = p ∧
          (kv.2.status = .running ∨ kv.2.status = .starting))) = true ↔
      ∃ kv ∈ s.forwards, kv.2.local_port = p ∧
        (kv.2.status = .running ∨ kv.2.status = .starting) := by
  rw [List.any_eq_true]
  simp only [decide_eq_true_eq]

theorem is_port_available_false_iff (bindOk : Nat → Bool) (s : PFState) (p : Nat) :
    is_port_available bindOk s p = false ↔
      p ∈ s.reserved_ports ∨
      (∃ kv ∈ s.forwards, kv.2.local_port = p ∧
        (kv.2.status = .running ∨ kv.2.status = .starting)) ∨
      bindOk p = false := by
  unfold is_port_available
  split_ifs with h1 h2
  · simp [h1]
  · rw [claimed_any_iff] at h2
    simp [h2]
  · rw [claimed_any_iff] at h2
    constructor
    · intro hb
      exact Or.inr (Or.inr hb)
    · rintro (h | h | h)
      · exact absurd h h1
      · exact absurd h h2
      · exact h

theorem is_port_available_true_iff (bindOk : Nat → Bool) (s : PFState) (p : Nat) :
    is_port_available bindOk s p = true ↔
      p ∉ s.reserved_ports ∧
      ¬ (∃ kv ∈ s.forwards, kv.2.local_port = p ∧
        (kv.2.status = .running ∨ kv.2.status = .starting)) ∧
      bindOk p = true := by
  unfold is_port_available
  split_ifs with h1 h2
  · simp [h1]
  · rw [claimed_any_iff] at h2
    simp [h2]
  · rw [claimed_any_iff] at h2
    simp [h1, h2]

theorem scan_ports_some {bindOk : Nat → Bool} {s : PFState} {p : Nat}
    (h : scan_ports bindOk s = some p) :
    is_port_available bindOk s p = true ∧
      PortRange.FORWARD_START ≤ p ∧ p ≤ PortRange.FORWARD_MAX := by
  unfold scan_ports at h
  have hp := List.find?_some h
  have hmem := List.mem_of_find?_eq_some h
  rw [List.mem_range'_1] at hmem
  refine ⟨hp, hmem.1, ?_⟩
  have h2 := hmem.2
  simp only [PortRange.FORWARD_START, PortRange.FORWARD_MAX] at h2 ⊢
  omega

theorem find_and_reserve_port_some {bindOk : Nat → Bool} {s s1 : PFState} {p : Nat}
    (h : find_and_reserve_port bindOk s = some (p, s1)) :
    is_port_available bindOk s p = true ∧
      PortRange.FORWARD_START ≤ p ∧ p ≤ PortRange.FORWARD_MAX ∧
      s1 = { s with reserved_ports := p :: s.reserved_ports } := by
  unfold find_and_reserve_port at h
  cases hs : scan_ports bindOk s with
  | none => simp [hs] at h
  | some q =>
    simp only [hs, Option.some.injEq, Prod.mk.injEq] at h
    obtain ⟨h1, h2⟩ := h
    subst h1
    obtain ⟨ha, hb, hc⟩ := scan_ports_some hs
    exact ⟨ha, hb, hc, h2.symm⟩

end GpuServerManager

namespace GpuServerManager

/-! ## Claim theorems -/

/-- Claim C1: the spec says `execute` on a server name absent from the
descriptor store returns `success=false, exitCode=-1` with a non-empty
stderr and never raises.  The code instead raises: `execute_command`
calls `get_connection` *before* its `try` block, and
`_create_connection` raises `ValueError` for an unknown name, so the
exception crosses the public boundary.  This theorem evaluates the
embedding at the failing input. -/
theorem c1_execute_absent_server_raises :
    execute_command envOk { servers := [], connections := [] } "no-such-server" "echo ok" =
      .error ("服务器 " ++ "no-such-server" ++ " 不存在") := rfl

/-- Claim C8 (counterexample): the claim that no lock is held across
blocking I/O fails at `stop_forward`, whose body holds `self.lock`
across `process.terminate()`, `process.wait(timeout=3)` and a
`time.sleep(1)`. -/
theorem c8_lock_counterexample : heldAcrossBlocking 0 stop_forward_trace = true := by
  decide

/-- Claim C8 (amended): the executor's main remote command runs outside
any lock, but `stop_forward` holds the manager lock across its
process-wait calls and `get_connection` holds the pool lock across the
liveness probe and the fresh `client.connect`. -/
theorem c8_lock_amended :
    heldAcrossBlocking 0 execute_main_trace = false ∧
    heldAcrossBlocking 0 get_connection_trace = true ∧
    heldAcrossBlocking 0 stop_forward_trace = true := by
  decide

/-- Claim C3: the spec says `delete_forward` on a present id stops the
tunnel, removes the descriptor and returns true.  The code instead
deadlocks: `delete_forward` holds the non-reentrant `self.lock` and
calls `stop_forward`, whose own `with self.lock` blocks forever
(modelled as `none`); on an absent id it returns false with the state
unchanged. -/
theorem c3_delete_forward_deadlock :
    (getFwd cexS 1).isSome = true ∧
    delete_forward 5 cexS 1 = none ∧
    getFwd cexS 2 = none ∧
    delete_forward 5 cexS 2 = some (false, cexS) := by
  decide

/-- Claim C2 (counterexample): `create_forward` for a server name absent
from the descriptor store does not fail synchronously — it does not
consult the store at all: it returns `success=True` and the port
reservation set grows from `[]` to `[16006]`. -/
theorem c2_create_forward_no_sync_failure :
    lookupS ([] : List (String × ServerConfig)) "ghost" = none ∧
    (create_forward (fun _ => true) 0 pfInit "ghost" "tb" 6006 none "custom").1.success = true ∧
    (create_forward (fun _ => true) 0 pfInit "ghost" "tb" 6006 none "custom").2.reserved_ports = [16006] ∧
    pfInit.reserved_ports = [] := by
  decide

/-- Claim C5 (counterexample): after `stop_forward` on a running tunnel
returns true (status `stopped`, `stopped_at` recorded), the local port
is *not* immediately reservable: it is still in `_reserved_ports`
(released only later by the worker's `finally` block), so an immediate
`create_forward` with that explicit port fails with the
port-unavailable error on account of that tunnel's reservation. -/
theorem c5_stop_port_not_immediately_reservable :
    (stop_forward 5 cexS 1).map (fun r => r.1) = some true ∧
    (stop_forward 5 cexS 1).map (fun r =>
        (getFwd r.2 1).map (fun f => (f.status, f.stopped_at))) =
      some (some (.stopped, some 5)) ∧
    (stop_forward 5 cexS 1).map (fun r => r.2.reserved_ports) = some [16006] ∧
    (stop_forward 5 cexS 1).map (fun r =>
        (create_forward (fun _ => true) 6 r.2 "gpu" "tb2" 6007 (some 16006) "custom").1) =
      some { success := false,
             error := some ("本地端口 " ++ toString 16006 ++ " 已被占用"),
             forward_id := none } := by
  decide

/-- Claim C6: `create_forward` with an explicit local port fails with the
port-unavailable error and leaves the state entirely unchanged when the
port is reserved, claimed by a `starting`/`running` forward, or fails
the OS bind test; when all three checks pass the port is reserved and
the new descriptor carries it. -/
theorem c6_explicit_port (bindOk : Nat → Bool) (now : Nat) (s : PFState)
    (sn nm tt : String) (rp p : Nat) :
    (is_port_available bindOk s p = false →
      create_forward bindOk now s sn nm rp (some p) tt =
        ({ success := false,
           error := some ("本地端口 " ++ toString p ++ " 已被占用"),
           forward_id := none }, s)) ∧
    (is_port_available bindOk s p = true →
      create_forward bindOk now s sn nm rp (some p) tt =
        ({ success := true, error := none, forward_id := some (s.forward_counter + 1) },
         { s with forward_counter := s.forward_counter + 1,
                  reserved_ports := p :: s.reserved_ports,
                  forwards := s.forwards ++
                    [(s.forward_counter + 1,
                      { server_name := sn, name := nm, remote_port := rp,
                        local_port := p, tool_type := tt, status := .starting,
                        created_at := now })] })) ∧
    (is_port_available bindOk s p = false ↔
      p ∈ s.reserved_ports ∨
      (∃ kv ∈ s.forwards, kv.2.local_port = p ∧
        (kv.2.status = .running ∨ kv.2.status = .starting)) ∨
      bindOk p = false) := by
  refine ⟨fun h => ?_, fun h => ?_, is_port_available_false_iff bindOk s p⟩
  · simp [create_forward, h]
  · simp [create_forward, h, mk_forward]

/-- Claim C6 witness: on the concrete running-forward state, the
explicit port 16006 is refused and the state is returned unchanged. -/
theorem c6_witness :
    create_forward (fun _ => true) 7 cexS "gpu" "x" 6006 (some 16006) "custom" =
      ({ success := false,
         error := some ("本地端口 " ++ toString 16006 ++ " 已被占用"),
         forward_id := none }, cexS) :=
  (c6_explicit_port (fun _ => true) 7 cexS "gpu" "x" "custom" 6006 16006).1 (by decide)

/-- Claim C9: for a password-only server configuration the worker's
spawn command is `sshpass -e` plus the base `ssh` argument list; the
password travels only in the `SSHPASS` environment entry, the argument
list never contains it (assuming the password does not coincide with
one of the fixed public tokens), and the argument list is independent
of the password value. -/
theorem c9_password_not_in_argv (cfg : ServerConfig) (p : String) (lp rp : Nat)
    (hkey : truthyS cfg.key_file = false) (hpw : cfg.password = some p)
    (hp : ¬ p = "") (h1 : ¬ p = "sshpass") (h2 : ¬ p = "-e")
    (hfree : p ∉ build_ssh_command cfg lp rp) :
    worker_auth cfg lp rp =
      .ok (["sshpass", "-e"] ++ build_ssh_command cfg lp rp, some p) ∧
    p ∉ ["sshpass", "-e"] ++ build_ssh_command cfg lp rp ∧
    (∀ q : String, ¬ q = "" →
      worker_auth { cfg with password := some q } lp rp =
        .ok (["sshpass", "-e"] ++ build_ssh_command cfg lp rp, some q)) := by
  refine ⟨?_, ?_, fun q hq => ?_⟩
  · simp only [worker_auth, hkey, hpw]
    simp [truthyS, hp]
  · intro hmem
    rcases List.mem_append.mp hmem with hmem | hmem
    · simp only [List.mem_cons, List.mem_singleton, List.not_mem_nil] at hmem
      rcases hmem with hmem | hmem | hmem
      · exact h1 hmem
      · exact h2 hmem
      · exact hmem
    · exact hfree hmem
  · simp only [worker_auth, hkey]
    simp [truthyS, hq, build_ssh_command]

/-- Claim C9 witness: the concrete password-only configuration `cfgW`
spawns `sshpass -e ssh ...` with the password only in `SSHPASS`. -/
theorem c9_witness :
    worker_auth cfgW 16006 6006 =
      .ok (["sshpass", "-e"] ++ build_ssh_command cfgW 16006 6006, some "hunter2") ∧
    "hunter2" ∉ ["sshpass", "-e"] ++ build_ssh_command cfgW 16006 6006 :=
  ⟨(c9_password_not_in_argv cfgW "hunter2" 16006 6006 (by decide) rfl (by decide)
      (by decide) (by decide) (by decide)).1,
   (c9_password_not_in_argv cfgW "hunter2" 16006 6006 (by decide) rfl (by decide)
      (by decide) (by decide) (by decide)).2.1⟩

/-- Claim C10: when `execute_command` obtains a handle and the remote
command completes without an exception, the result is built from the
fully read streams and `success` is true exactly when the collected
exit code is 0. -/
theorem c10_execute_success_iff (env : SSHEnv) (s s1 : PoolState)
    (name cmd : String) (h : Nat) (info : ExecInfo)
    (hget : get_connection env s name = .ok (some h, s1))
    (hex : env.execOutcome = .ok info) :
    execute_command env s name cmd =
      .ok ({ success := decide (info.exit_code = 0), stdout := info.stdout,
             stderr := info.stderr, exit_code := info.exit_code }, s1) ∧
    (decide (info.exit_code = 0) = true ↔ info.exit_code = 0) := by
  constructor
  · unfold execute_command
    rw [hget, hex]
  · simp

/-- Claim C10 witness: a healthy pooled server with a zero exit code
yields `success=true` with the streams attached. -/
theorem c10_witness :
    execute_command envOk poolW "gpu" "nvidia-smi" =
      .ok ({ success := decide ((0 : Int) = 0), stdout := "ok", stderr := "",
             exit_code := 0 }, poolW) ∧
    (decide ((0 : Int) = 0) = true ↔ (0 : Int) = 0) :=
  c10_execute_success_iff envOk poolW poolW "gpu" "nvidia-smi" 0
    { exit_code := 0, stdout := "ok", stderr := "" } rfl rfl

end GpuServerManager

namespace GpuServerManager

/-- Claim C7: with a cached handle present, a passing liveness probe
returns that very handle with the pool unchanged (no creation attempt);
a failing probe removes the stale handle and makes exactly one creation
attempt with the store's current entry — a successful one is inserted,
a failed one yields the `None` error value with no retry (the attempt
counter moves by exactly one either way). -/
theorem c7_get_connection (env : SSHEnv) (s : PoolState) (name : String) (h : Nat)
    (hc : lookupS s.connections name = some h) :
    (env.probeOk h = true → get_connection env s name = .ok (some h, s)) ∧
    (env.probeOk h = false → ∀ cfg, lookupS s.servers name = some cfg →
      (cfg.key_file.isSome ∨ cfg.password.isSome) →
      (env.connectOk = true →
        get_connection env s name =
          .ok (some s.next_handle,
            { s with connections := eraseS s.connections name ++ [(name, s.next_handle)],
                     next_handle := s.next_handle + 1,
                     create_attempts := s.create_attempts + 1 })) ∧
      (env.connectOk = false →
        get_connection env s name =
          .ok (none, { s with connections := eraseS s.connections name,
                              create_attempts := s.create_attempts + 1 }))) := by
  constructor
  · intro hprobe
    simp [get_connection, hc, hprobe]
  · intro hprobe cfg hsrv hauth
    constructor
    · intro hconn
      simp [get_connection, create_connection, hc, hprobe, hsrv, hauth, hconn]
    · intro hconn
      simp [get_connection, create_connection, hc, hprobe, hsrv, hauth, hconn]

/-- Claim C7 witness: with all probes failing, the cached handle of
`poolW` is evicted and exactly one fresh creation happens. -/
theorem c7_witness :
    get_connection envPF poolW "gpu" =
      .ok (some poolW.next_handle,
        { poolW with
            connections := eraseS poolW.connections "gpu" ++ [("gpu", poolW.next_handle)],
            next_handle := poolW.next_handle + 1,
            create_attempts := poolW.create_attempts + 1 }) :=
  ((c7_get_connection envPF poolW "gpu" 0 rfl).2 rfl cfgW rfl
    (Or.inr (by decide))).1 rfl

end GpuServerManager

namespace GpuServerManager

theorem lookupN_append_fresh {α : Type} (l : List (Nat × α)) (c : Nat) (a : α)
    (hk : ∀ kv ∈ l, kv.1 < c) : lookupN (l ++ [(c, a)]) c = some a := by
  unfold lookupN
  rw [List.find?_append]
  have hnone : l.find? (fun kv => kv.1 == c) = none := by
    rw [List.find?_eq_none]
    intro kv hkv
    have := hk kv hkv
    simp only [beq_iff_eq]
    omega
  rw [hnone, Option.none_or,
    @List.find?_cons_of_pos _ (fun kv => kv.1 == c) (c, a) [] (beq_self_eq_true c)]
  rfl

theorem mem_updateFwd {s : PFState} {fid : Nat} {g : ForwardInfo → ForwardInfo}
    {kv : Nat × ForwardInfo} :
    kv ∈ (updateFwd s fid g).forwards ↔
      ∃ kv0 ∈ s.forwards, kv = if kv0.1 = fid then (kv0.1, g kv0.2) else kv0 := by
  rw [updateFwd_forwards, List.mem_map]
  constructor
  · rintro ⟨kv0, h0, h1⟩
    exact ⟨kv0, h0, h1.symm⟩
  · rintro ⟨kv0, h0, h1⟩
    exact ⟨kv0, h0, h1.symm⟩

theorem updateFwd_reserved (s : PFState) (fid : Nat) (g : ForwardInfo → ForwardInfo) :
    (updateFwd s fid g).reserved_ports = s.reserved_ports := rfl

theorem updateFwd_counter (s : PFState) (fid : Nat) (g : ForwardInfo → ForwardInfo) :
    (updateFwd s fid g).forward_counter = s.forward_counter := rfl

theorem worker_release_reserved {s : PFState} {fid : Nat} {f : ForwardInfo}
    (h : getFwd s fid = some f) :
    (worker_release s fid).reserved_ports = s.reserved_ports.erase f.local_port := by
  unfold worker_release
  rw [h]
  rfl

theorem worker_release_forwards {s : PFState} {fid : Nat} {f : ForwardInfo}
    (h : getFwd s fid = some f) :
    (worker_release s fid).forwards =
      (updateFwd s fid (fun g => { g with wReleased := true })).forwards := by
  unfold worker_release
  rw [h]

theorem getFwd_worker_release {s : PFState} {fid j : Nat} {f : ForwardInfo}
    (h : getFwd s fid = some f) :
    getFwd (worker_release s fid) j =
      if j = fid then some { f with wReleased := true } else getFwd s j := by
  unfold worker_release
  rw [h]
  show getFwd (updateFwd s fid (fun g => { g with wReleased := true })) j = _
  rw [getFwd_updateFwd]
  by_cases hj : j = fid
  · rw [if_pos hj, if_pos hj, h]
    rfl
  · rw [if_neg hj, if_neg hj]

theorem create_forward_auto_some {bindOk : Nat → Bool} {now : Nat} {s s1 : PFState}
    {sn nm tt : String} {rp p : Nat}
    (h : find_and_reserve_port bindOk s = some (p, s1)) :
    create_forward bindOk now s sn nm rp none tt =
      ({ success := true, error := none, forward_id := some (s.forward_counter + 1) },
       { s with forward_counter := s.forward_counter + 1,
                reserved_ports := p :: s.reserved_ports,
                forwards := s.forwards ++
                  [(s.forward_counter + 1,
                    { server_name := sn, name := nm, remote_port := rp,
                      local_port := p, tool_type := tt, status := .starting,
                      created_at := now })] }) := by
  obtain ⟨-, -, -, hs1⟩ := find_and_reserve_port_some h
  unfold create_forward
  rw [h, hs1]
  simp [mk_forward]

/-- Claim C2 (amended): `create_forward` on a server name that the
descriptor store cannot resolve still succeeds synchronously, reserving
a port; the failure surfaces only in the worker — its `except` branch
sets the descriptor to `error` with the resolution message and its
`finally` steps release the port, restoring the reservation set to its
pre-call value. -/
theorem c2_async_failure_amended (servers : List (String × ServerConfig))
    (sn nm tt : String) (rp : Nat) (bindOk : Nat → Bool) (now now2 : Nat)
    (s s1 : PFState) (p : Nat)
    (habs : lookupS servers sn = none)
    (hkeys : ∀ kv ∈ s.forwards, kv.1 ≤ s.forward_counter)
    (hres : find_and_reserve_port bindOk s = some (p, s1)) :
    worker_resolve servers sn = .error ("未找到服务器配置: " ++ sn) ∧
    (create_forward bindOk now s sn nm rp none tt).1 =
      { success := true, error := none, forward_id := some (s.forward_counter + 1) } ∧
    (create_forward bindOk now s sn nm rp none tt).2.reserved_ports =
      p :: s.reserved_ports ∧
    (worker_release
        (worker_finalize now2
          (worker_error ("未找到服务器配置: " ++ sn)
            (create_forward bindOk now s sn nm rp none tt).2
            (s.forward_counter + 1))
          (s.forward_counter + 1))
        (s.forward_counter + 1)).reserved_ports = s.reserved_ports ∧
    ((getFwd (worker_release
        (worker_finalize now2
          (worker_error ("未找到服务器配置: " ++ sn)
            (create_forward bindOk now s sn nm rp none tt).2
            (s.forward_counter + 1))
          (s.forward_counter + 1))
        (s.forward_counter + 1)) (s.forward_counter + 1)).map (fun g => g.status)) =
      some .error := by
  have hcr := @create_forward_auto_some bindOk now s s1 sn nm tt rp p hres
  set c := s.forward_counter + 1 with hc
  set info : ForwardInfo :=
    { server_name := sn, name := nm, remote_port := rp, local_port := p,
      tool_type := tt, status := .starting, created_at := now } with hinfo
  have hget2 : getFwd (create_forward bindOk now s sn nm rp none tt).2 c = some info := by
    rw [hcr]
    show lookupN (s.forwards ++ [(c, info)]) c = some info
    exact lookupN_append_fresh s.forwards c info
      (fun kv hkv => by have := hkeys kv hkv; omega)
  set r2 := (create_forward bindOk now s sn nm rp none tt).2 with hr2
  set msg := "未找到服务器配置: " ++ sn with hmsg
  have hgetE : getFwd (worker_error msg r2 c) c =
      some { info with status := .error, error := some msg } := by
    unfold worker_error
    rw [getFwd_updateFwd, if_pos rfl, hget2]
    rfl
  have hgetF : getFwd (worker_finalize now2 (worker_error msg r2 c) c) c =
      some { info with
        status := .error, error := some msg,
        stopped_at := some now2, wFinished := true } := by
    unfold worker_finalize
    rw [getFwd_updateFwd, if_pos rfl, hgetE]
    rfl
  refine ⟨by simp [worker_resolve, habs], by rw [hcr], by rw [hr2, hcr], ?_, ?_⟩
  · rw [worker_release_reserved hgetF]
    show ((worker_error msg r2 c).reserved_ports).erase info.local_port = s.reserved_ports
    unfold worker_error
    rw [updateFwd_reserved, hr2, hcr]
    show (p :: s.reserved_ports).erase p = s.reserved_ports
    exact List.erase_cons_head p s.reserved_ports
  · rw [getFwd_worker_release hgetF, if_pos rfl]
    rfl

/-- Claim C2 witness: the concrete reserved-then-released round trip on
the empty manager and an empty descriptor store. -/
theorem c2_witness :
    worker_resolve ([] : List (String × ServerConfig)) "ghost" =
      .error ("未找到服务器配置: " ++ "ghost") ∧
    (create_forward (fun _ => true) 0 pfInit "ghost" "tb" 6006 none "custom").1 =
      { success := true, error := none, forward_id := some 1 } ∧
    (create_forward (fun _ => true) 0 pfInit "ghost" "tb" 6006 none "custom").2.reserved_ports =
      16006 :: pfInit.reserved_ports ∧
    (worker_release
        (worker_finalize 9
          (worker_error ("未找到服务器配置: " ++ "ghost")
            (create_forward (fun _ => true) 0 pfInit "ghost" "tb" 6006 none "custom").2 1)
          1) 1).reserved_ports = pfInit.reserved_ports ∧
    ((getFwd (worker_release
        (worker_finalize 9
          (worker_error ("未找到服务器配置: " ++ "ghost")
            (create_forward (fun _ => true) 0 pfInit "ghost" "tb" 6006 none "custom").2 1)
          1) 1) 1).map (fun g => g.status)) = some .error :=
  c2_async_failure_amended [] "ghost" "tb" "custom" 6006 (fun _ => true) 0 9
    pfInit { pfInit with reserved_ports := [16006] } 16006 rfl
    (by intro kv hkv; simp [pfInit] at hkv) (by decide)

end GpuServerManager

namespace GpuServerManager

/-- Claim C5 (amended): `stop_forward` on a running tunnel returns true
with status `stopped` and `stopped_at` recorded, but the reservation set
is untouched, so an immediate explicit-port `create_forward` still sees
the port reserved (`is_port_available` is false); only after the worker
thread has run its `finally` steps (finalize + release) does the port
become available again. -/
theorem c5_stop_then_release_amended (now now2 : Nat) (s : PFState) (fid : Nat)
    (f : ForwardInfo) (bindOk : Nat → Bool)
    (hf : getFwd s fid = some f) (hrun : f.status = .running)
    (hres : f.local_port ∈ s.reserved_ports)
    (hnodup : s.reserved_ports.Nodup)
    (hother : ∀ kv ∈ s.forwards, ¬ kv.1 = fid →
      ¬(kv.2.local_port = f.local_port ∧
        (kv.2.status = .running ∨ kv.2.status = .starting)))
    (hbind : bindOk f.local_port = true) :
    stop_forward now s fid = some (true, stop_end now (stop_begin s fid) fid) ∧
    (getFwd (stop_end now (stop_begin s fid) fid) fid).map (fun g => g.status) =
      some .stopped ∧
    (getFwd (stop_end now (stop_begin s fid) fid) fid).map (fun g => g.stopped_at) =
      some (some now) ∧
    (stop_end now (stop_begin s fid) fid).reserved_ports = s.reserved_ports ∧
    is_port_available bindOk (stop_end now (stop_begin s fid) fid) f.local_port = false ∧
    is_port_available bindOk
      (worker_release (worker_finalize now2 (stop_end now (stop_begin s fid) fid)
        fid) fid) f.local_port = true := by
  have hget1 : getFwd (stop_end now (stop_begin s fid) fid) fid =
      some { f with status := .stopped, stopped_at := some now } := by
    show getFwd (updateFwd (stop_begin s fid) fid
        (fun g => { g with status := .stopped, stopped_at := some now })) fid =
      some { f with status := .stopped, stopped_at := some now }
    rw [getFwd_updateFwd, if_pos rfl]
    show (getFwd (updateFwd s fid (fun g => { g with status := .stopping })) fid).map
        (fun g => { g with status := .stopped, stopped_at := some now }) =
      some { f with status := .stopped, stopped_at := some now }
    rw [getFwd_updateFwd, if_pos rfl, hf]
    rfl
  have hget2 : getFwd (worker_finalize now2 (stop_end now (stop_begin s fid) fid) fid)
      fid = some { f with
        status := .stopped, stopped_at := some now2, wFinished := true } := by
    unfold worker_finalize
    rw [getFwd_updateFwd, if_pos rfl, hget1]
    rfl
  have hresv1 : (stop_end now (stop_begin s fid) fid).reserved_ports =
      s.reserved_ports := rfl
  refine ⟨?_, ?_, ?_, hresv1, ?_, ?_⟩
  · unfold stop_forward stop_forward_impl
    rw [hf]
    simp [hrun]
  · rw [hget1]
    rfl
  · rw [hget1]
    rfl
  · unfold is_port_available
    rw [if_pos (show f.local_port ∈
      (stop_end now (stop_begin s fid) fid).reserved_ports from hres)]
  · rw [is_port_available_true_iff]
    refine ⟨?_, ?_, hbind⟩
    · rw [worker_release_reserved hget2]
      show f.local_port ∉ s.reserved_ports.erase _
      exact fun hmem => absurd ((hnodup.mem_erase_iff).mp hmem).1 (by simp)
    · rintro ⟨kv, hkv, hport, hst⟩
      rw [worker_release_forwards hget2] at hkv
      rcases mem_updateFwd.mp hkv with ⟨kv3, h3, he3⟩
      have hkv3 : kv3 ∈ (updateFwd (stop_end now (stop_begin s fid) fid) fid
          (fun g =>
            { g with stopped_at := some now2,
                     status := if g.status = .running then .stopped else g.status,
                     wFinished := true })).forwards := h3
      rcases mem_updateFwd.mp hkv3 with ⟨kv4, h4, he4⟩
      have hkv4 : kv4 ∈ (updateFwd (stop_begin s fid) fid
          (fun g => { g with status := .stopped, stopped_at := some now })).forwards := h4
      rcases mem_updateFwd.mp hkv4 with ⟨kv5, h5, he5⟩
      have hkv5 : kv5 ∈ (updateFwd s fid
          (fun g => { g with status := .stopping })).forwards := h5
      rcases mem_updateFwd.mp hkv5 with ⟨kv0, h0, he0⟩
      by_cases hk : kv0.1 = fid
      · rw [he0, if_pos hk] at he5
        rw [he5, if_pos hk] at he4
        rw [he4, if_pos hk] at he3
        rw [he3, if_pos hk] at hst
        simp at hst
      · rw [he0, if_neg hk] at he5
        rw [he5, if_neg hk] at he4
        rw [he4, if_neg hk] at he3
        rw [he3, if_neg hk] at hst hport
        exact hother kv0 h0 hk ⟨hport, hst⟩

/-- Claim C5 witness: the concrete running forward of `cexS` — stopped,
then the port 16006 unavailable until the worker's release, available
after it. -/
theorem c5_witness :
    stop_forward 5 cexS 1 = some (true, stop_end 5 (stop_begin cexS 1) 1) ∧
    (getFwd (stop_end 5 (stop_begin cexS 1) 1) 1).map (fun g => g.status) =
      some .stopped ∧
    (getFwd (stop_end 5 (stop_begin cexS 1) 1) 1).map (fun g => g.stopped_at) =
      some (some 5) ∧
    (stop_end 5 (stop_begin cexS 1) 1).reserved_ports = cexS.reserved_ports ∧
    is_port_available (fun _ => true) (stop_end 5 (stop_begin cexS 1) 1)
      cexInfo.local_port = false ∧
    is_port_available (fun _ => true)
      (worker_release (worker_finalize 6 (stop_end 5 (stop_begin cexS 1) 1) 1) 1)
      cexInfo.local_port = true :=
  c5_stop_then_release_amended 5 6 cexS 1 cexInfo (fun _ => true) rfl rfl
    (by decide) (by decide) (by decide) rfl

end GpuServerManager

namespace GpuServerManager

/-! ### Invariant-preservation helper lemmas (claim C4) -/

theorem mem_updateFwd_nodup {s : PFState} {fid : Nat} {g : ForwardInfo → ForwardInfo}
    {kv : Nat × ForwardInfo} {f : ForwardInfo}
    (hnd : (s.forwards.map (·.1)).Nodup) (hf : getFwd s fid = some f) :
    kv ∈ (updateFwd s fid g).forwards ↔
      (kv.1 ≠ fid ∧ kv ∈ s.forwards) ∨ kv = (fid, g f) := by
  constructor
  · intro h
    rcases mem_updateFwd.mp h with ⟨kv0, h0, he⟩
    by_cases hk : kv0.1 = fid
    · right
      have hkv0 : (fid, kv0.2) ∈ s.forwards := by
        rw [← hk]
        exact h0
      have hv : kv0.2 = f := by
        have := getFwd_of_mem hnd hkv0
        rw [hf] at this
        exact (Option.some.inj this).symm
      rw [he, if_pos hk, hk, hv]
    · left
      rw [he, if_neg hk]
      exact ⟨hk, h0⟩
  · intro h
    rcases h with ⟨hne, hmem⟩ | heq
    · exact mem_updateFwd.mpr ⟨kv, hmem, by rw [if_neg hne]⟩
    · exact mem_updateFwd.mpr ⟨(fid, f), getFwd_mem hf, by rw [heq, if_pos rfl]⟩

theorem keys_le_update {s : PFState} {fid : Nat} {g : ForwardInfo → ForwardInfo}
    {c : Nat} (h : ∀ kv ∈ s.forwards, kv.1 ≤ c) :
    ∀ kv ∈ (updateFwd s fid g).forwards, kv.1 ≤ c := by
  intro kv hkv
  rcases mem_updateFwd.mp hkv with ⟨kv0, h0, he⟩
  by_cases hk : kv0.1 = fid
  · rw [he, if_pos hk]
    exact h kv0 h0
  · rw [he, if_neg hk]
    exact h kv0 h0

theorem filter_map_update_sub (l : List (Nat × ForwardInfo)) (fid : Nat)
    (g : ForwardInfo → ForwardInfo)
    (hport : ∀ v, (g v).local_port = v.local_port)
    (hrel : ∀ v, v.wReleased = true → (g v).wReleased = true) :
    List.Sublist
      (((l.map fun kv => if kv.1 = fid then (kv.1, g kv.2) else kv).filter
        (fun kv => kv.2.wReleased == false)).map (fun kv => kv.2.local_port))
      ((l.filter (fun kv => kv.2.wReleased == false)).map
        (fun kv => kv.2.local_port)) := by
  induction l with
  | nil => simp
  | cons kv tl ih =>
    by_cases hk : kv.1 = fid
    · simp only [List.map_cons, if_pos hk]
      by_cases hr : (g kv.2).wReleased = false
      · have hold : kv.2.wReleased = false := by
          by_contra hc
          rw [Bool.not_eq_false] at hc
          rw [hrel kv.2 hc] at hr
          simp at hr
        rw [List.filter_cons_of_pos (by simpa using hr),
          List.filter_cons_of_pos (by simpa using hold)]
        simp only [List.map_cons]
        rw [hport]
        exact List.Sublist.cons₂ _ ih
      · rw [List.filter_cons_of_neg (by simpa using hr)]
        by_cases hold : kv.2.wReleased = false
        · rw [List.filter_cons_of_pos (by simpa using hold)]
          simp only [List.map_cons]
          exact List.Sublist.cons _ ih
        · rw [List.filter_cons_of_neg (by simpa using hold)]
          exact ih
    · simp only [List.map_cons, if_neg hk]
      by_cases hold : kv.2.wReleased = false
      · rw [List.filter_cons_of_pos (by simpa using hold),
          List.filter_cons_of_pos (by simpa using hold)]
        simp only [List.map_cons]
        exact List.Sublist.cons₂ _ ih
      · rw [List.filter_cons_of_neg (by simpa using hold),
          List.filter_cons_of_neg (by simpa using hold)]
        exact ih

theorem uports_updateFwd_sub {s : PFState} {fid : Nat} {g : ForwardInfo → ForwardInfo}
    (hport : ∀ v, (g v).local_port = v.local_port)
    (hrel : ∀ v, v.wReleased = true → (g v).wReleased = true) :
    List.Sublist (uports (updateFwd s fid g)) (uports s) :=
  filter_map_update_sub s.forwards fid g hport hrel

theorem mem_uports {s : PFState} {u : Nat} :
    u ∈ uports s ↔
      ∃ kv ∈ s.forwards, kv.2.wReleased = false ∧ kv.2.local_port = u := by
  unfold uports
  rw [List.mem_map]
  constructor
  · rintro ⟨kv, hkv, he⟩
    rw [List.mem_filter] at hkv
    exact ⟨kv, hkv.1, by simpa using hkv.2, he⟩
  · rintro ⟨kv, hkv, hrel, he⟩
    exact ⟨kv, List.mem_filter.mpr ⟨hkv, by simpa using hrel⟩, he⟩

theorem filter_sublist_of_imp {α : Type} {p q : α → Bool} :
    ∀ {l : List α}, (∀ a ∈ l, p a = true → q a = true) →
      List.Sublist (l.filter p) (l.filter q) := by
  intro l
  induction l with
  | nil => intro _; simp
  | cons a tl ih =>
    intro h
    have htl := ih (fun b hb => h b (List.mem_cons_of_mem a hb))
    by_cases hp : p a = true
    · rw [List.filter_cons_of_pos hp,
        List.filter_cons_of_pos (h a (List.mem_cons_self a tl) hp)]
      exact List.Sublist.cons₂ _ htl
    · rw [List.filter_cons_of_neg (by simpa using hp)]
      by_cases hq : q a = true
      · rw [List.filter_cons_of_pos hq]
        exact List.Sublist.cons _ htl
      · rw [List.filter_cons_of_neg (by simpa using hq)]
        exact htl

theorem ntports_nodup_of_inv {s : PFState} (hInv : Inv s) : (ntports s).Nodup := by
  have hsub : List.Sublist (s.forwards.filter (fun kv => kv.2.status.nonTerminal))
      (s.forwards.filter (fun kv => kv.2.wReleased == false)) :=
    filter_sublist_of_imp (fun kv hkv hp => by
      simpa using hInv.nonterm_unrel kv hkv hp)
  have hm := hsub.map (fun kv => kv.2.local_port)
  exact List.Nodup.sublist (show List.Sublist (ntports s) (uports s) from hm)
    hInv.uports_nodup

end GpuServerManager

namespace GpuServerManager

theorem inv_set_running {s : PFState} {fid : Nat} {f : ForwardInfo}
    (hInv : Inv s) (hf : getFwd s fid = some f) (hst : f.status = .starting) :
    Inv (worker_set_running s fid) := by
  have hnd := hInv.keys_nodup
  have hfu : f.wReleased = false :=
    hInv.nonterm_unrel (fid, f) (getFwd_mem hf) (by rw [hst]; rfl)
  have hff : f.wFinished = false := by
    by_contra hc
    rw [Bool.not_eq_false] at hc
    exact (hInv.fin_status (fid, f) (getFwd_mem hf) hc).1 hst
  constructor
  · show ((updateFwd s fid _).forwards.map (·.1)).Nodup
    rw [updateFwd_keys]
    exact hnd
  · intro kv hkv
    exact keys_le_update hInv.keys_le kv hkv
  · exact hInv.resv_nodup
  · intro kv hkv hrel
    rcases (mem_updateFwd_nodup hnd hf).mp hkv with ⟨_, hmem⟩ | heq
    · exact hInv.resv_mem kv hmem hrel
    · rw [heq] at hrel ⊢
      exact hInv.resv_mem (fid, f) (getFwd_mem hf) hrel
  · exact List.Nodup.sublist (uports_updateFwd_sub (fun _ => rfl) (fun _ h => h))
      hInv.uports_nodup
  · intro kv hkv hnt
    rcases (mem_updateFwd_nodup hnd hf).mp hkv with ⟨_, hmem⟩ | heq
    · exact hInv.nonterm_unrel kv hmem hnt
    · rw [heq]
      exact hfu
  · intro kv hkv hstp
    rcases (mem_updateFwd_nodup hnd hf).mp hkv with ⟨_, hmem⟩ | heq
    · exact hInv.stopping_infl kv hmem hstp
    · rw [heq] at hstp
      exact absurd hstp (by simp)
  · intro kv hkv hfin
    rcases (mem_updateFwd_nodup hnd hf).mp hkv with ⟨_, hmem⟩ | heq
    · exact hInv.fin_status kv hmem hfin
    · rw [heq] at hfin
      have h2 : f.wFinished = true := hfin
      rw [hff] at h2
      exact absurd h2 Bool.false_ne_true

end GpuServerManager

namespace GpuServerManager

theorem worker_release_counter {s : PFState} {fid : Nat} {f : ForwardInfo}
    (h : getFwd s fid = some f) :
    (worker_release s fid).forward_counter = s.forward_counter := by
  unfold worker_release
  rw [h]
  rfl

theorem worker_release_inflight {s : PFState} {fid : Nat} {f : ForwardInfo}
    (h : getFwd s fid = some f) :
    (worker_release s fid).stop_inflight = s.stop_inflight := by
  unfold worker_release
  rw [h]
  rfl

theorem create_forward_auto_none {bindOk : Nat → Bool} {now : Nat} {s : PFState}
    {sn nm tt : String} {rp : Nat}
    (h : find_and_reserve_port bindOk s = none) :
    create_forward bindOk now s sn nm rp none tt =
      ({ success := false, error := some "无法分配可用端口，请稍后重试",
         forward_id := none }, s) := by
  unfold create_forward
  rw [h]

theorem create_forward_explicit_unavail {bindOk : Nat → Bool} {now : Nat}
    {s : PFState} {sn nm tt : String} {rp p : Nat}
    (h : is_port_available bindOk s p = false) :
    create_forward bindOk now s sn nm rp (some p) tt =
      ({ success := false,
         error := some ("本地端口 " ++ toString p ++ " 已被占用"),
         forward_id := none }, s) := by
  unfold create_forward
  simp [h]

theorem create_forward_explicit_avail {bindOk : Nat → Bool} {now : Nat}
    {s : PFState} {sn nm tt : String} {rp p : Nat}
    (h : is_port_available bindOk s p = true) :
    create_forward bindOk now s sn nm rp (some p) tt =
      mk_forward now { s with reserved_ports := p :: s.reserved_ports }
        sn nm rp p tt := by
  unfold create_forward
  simp [h]

theorem inv_w_error {s : PFState} {fid : Nat} {f : ForwardInfo} {msg : String}
    (hInv : Inv s) (hf : getFwd s fid = some f) :
    Inv (worker_error msg s fid) := by
  have hnd := hInv.keys_nodup
  constructor
  · show ((updateFwd s fid _).forwards.map (·.1)).Nodup
    rw [updateFwd_keys]
    exact hnd
  · intro kv hkv
    exact keys_le_update hInv.keys_le kv hkv
  · exact hInv.resv_nodup
  · intro kv hkv hrel
    rcases (mem_updateFwd_nodup hnd hf).mp hkv with ⟨_, hmem⟩ | heq
    · exact hInv.resv_mem kv hmem hrel
    · rw [heq] at hrel ⊢
      exact hInv.resv_mem (fid, f) (getFwd_mem hf) hrel
  · exact List.Nodup.sublist (uports_updateFwd_sub (fun _ => rfl) (fun _ h => h))
      hInv.uports_nodup
  · intro kv hkv hnt
    rcases (mem_updateFwd_nodup hnd hf).mp hkv with ⟨_, hmem⟩ | heq
    · exact hInv.nonterm_unrel kv hmem hnt
    · rw [heq] at hnt
      exact absurd (show (false : Bool) = true from hnt) Bool.false_ne_true
  · intro kv hkv hstp
    rcases (mem_updateFwd_nodup hnd hf).mp hkv with ⟨_, hmem⟩ | heq
    · exact hInv.stopping_infl kv hmem hstp
    · rw [heq] at hstp
      exact absurd hstp (by simp)
  · intro kv hkv hfin
    rcases (mem_updateFwd_nodup hnd hf).mp hkv with ⟨_, hmem⟩ | heq
    · exact hInv.fin_status kv hmem hfin
    · rw [heq]
      exact ⟨by simp, by simp⟩

theorem inv_w_finalize {s : PFState} {fid : Nat} {f : ForwardInfo} {now : Nat}
    (hInv : Inv s) (hf : getFwd s fid = some f) (hst : f.status ≠ .starting) :
    Inv (worker_finalize now s fid) := by
  have hnd := hInv.keys_nodup
  constructor
  · show ((updateFwd s fid _).forwards.map (·.1)).Nodup
    rw [updateFwd_keys]
    exact hnd
  · intro kv hkv
    exact keys_le_update hInv.keys_le kv hkv
  · exact hInv.resv_nodup
  · intro kv hkv hrel
    rcases (mem_updateFwd_nodup hnd hf).mp hkv with ⟨_, hmem⟩ | heq
    · exact hInv.resv_mem kv hmem hrel
    · rw [heq] at hrel ⊢
      exact hInv.resv_mem (fid, f) (getFwd_mem hf) hrel
  · exact List.Nodup.sublist (uports_updateFwd_sub (fun _ => rfl) (fun _ h => h))
      hInv.uports_nodup
  · intro kv hkv hnt
    rcases (mem_updateFwd_nodup hnd hf).mp hkv with ⟨_, hmem⟩ | heq
    · exact hInv.nonterm_unrel kv hmem hnt
    · subst heq
      by_cases hr : f.status = .running
      · simp [hr, FwdStatus.nonTerminal] at hnt
      · show f.wReleased = false
        exact hInv.nonterm_unrel (fid, f) (getFwd_mem hf) (by
          simpa [hr] using hnt)
  · intro kv hkv hstp
    rcases (mem_updateFwd_nodup hnd hf).mp hkv with ⟨_, hmem⟩ | heq
    · exact hInv.stopping_infl kv hmem hstp
    · subst heq
      by_cases hr : f.status = .running
      · simp [hr] at hstp
      · exact hInv.stopping_infl (fid, f) (getFwd_mem hf) (by
          simpa [hr] using hstp)
  · intro kv hkv hfin
    rcases (mem_updateFwd_nodup hnd hf).mp hkv with ⟨_, hmem⟩ | heq
    · exact hInv.fin_status kv hmem hfin
    · rw [heq]
      by_cases hr : f.status = .running
      · constructor
        · show (if f.status = FwdStatus.running then FwdStatus.stopped else f.status) ≠
            FwdStatus.starting
          simp [hr]
        · show (if f.status = FwdStatus.running then FwdStatus.stopped else f.status) ≠
            FwdStatus.running
          simp [hr]
      · constructor
        · show (if f.status = FwdStatus.running then FwdStatus.stopped else f.status) ≠
            FwdStatus.starting
          simp [hr, hst]
        · show (if f.status = FwdStatus.running then FwdStatus.stopped else f.status) ≠
            FwdStatus.running
          simp [hr]

end GpuServerManager

namespace GpuServerManager

theorem inv_w_release {s : PFState} {fid : Nat} {f : ForwardInfo}
    (hInv : Inv s) (hf : getFwd s fid = some f) (hfin : f.wFinished = true)
    (hrel : f.wReleased = false) (hl : s.stop_inflight = none) :
    Inv (worker_release s fid) := by
  have hnd := hInv.keys_nodup
  have hs1 : f.status ≠ .starting := (hInv.fin_status (fid, f) (getFwd_mem hf) hfin).1
  have hs2 : f.status ≠ .running := (hInv.fin_status (fid, f) (getFwd_mem hf) hfin).2
  have hs3 : f.status ≠ .stopping := by
    intro hc
    have := hInv.stopping_infl (fid, f) (getFwd_mem hf) hc
    rw [hl] at this
    exact Option.noConfusion this
  have hterm : f.status.nonTerminal = false := by
    cases hcs : f.status <;> simp_all [FwdStatus.nonTerminal]
  constructor
  · rw [show (worker_release s fid).forwards =
        (updateFwd s fid (fun g => { g with wReleased := true })).forwards
      from worker_release_forwards hf, updateFwd_keys]
    exact hnd
  · intro kv hkv
    rw [worker_release_forwards hf] at hkv
    rw [worker_release_counter hf]
    exact keys_le_update hInv.keys_le kv hkv
  · rw [worker_release_reserved hf]
    exact hInv.resv_nodup.erase f.local_port
  · intro kv hkv hkrel
    rw [worker_release_forwards hf] at hkv
    rw [worker_release_reserved hf]
    rcases (mem_updateFwd_nodup hnd hf).mp hkv with ⟨hne, hmem⟩ | heq
    · have hmem2 : kv.2.local_port ∈ s.reserved_ports := hInv.resv_mem kv hmem hkrel
      have hpne : kv.2.local_port ≠ f.local_port := by
        intro hpe
        have hkvf : kv ∈ s.forwards.filter (fun kv => kv.2.wReleased == false) :=
          List.mem_filter.mpr ⟨hmem, by simpa using hkrel⟩
        have hff : (fid, f) ∈ s.forwards.filter (fun kv => kv.2.wReleased == false) :=
          List.mem_filter.mpr ⟨getFwd_mem hf, by simpa using hrel⟩
        have := List.inj_on_of_nodup_map hInv.uports_nodup hkvf hff hpe
        exact hne (by rw [this])
      exact (List.mem_erase_of_ne hpne).mpr hmem2
    · rw [heq] at hkrel
      exact absurd (show (true : Bool) = false from hkrel) (by simp)
  · have he : uports (worker_release s fid) =
        uports (updateFwd s fid (fun g => { g with wReleased := true })) := by
      unfold uports
      rw [worker_release_forwards hf]
    rw [he]
    exact List.Nodup.sublist (uports_updateFwd_sub (fun _ => rfl) (fun _ _ => rfl))
      hInv.uports_nodup
  · intro kv hkv hnt
    rw [worker_release_forwards hf] at hkv
    rcases (mem_updateFwd_nodup hnd hf).mp hkv with ⟨_, hmem⟩ | heq
    · exact hInv.nonterm_unrel kv hmem hnt
    · subst heq
      have h2 : f.status.nonTerminal = true := hnt
      rw [hterm] at h2
      exact absurd h2 Bool.false_ne_true
  · intro kv hkv hstp
    rw [worker_release_forwards hf] at hkv
    rw [worker_release_inflight hf]
    rcases (mem_updateFwd_nodup hnd hf).mp hkv with ⟨_, hmem⟩ | heq
    · exact hInv.stopping_infl kv hmem hstp
    · subst heq
      exact absurd (show f.status = .stopping from hstp) hs3
  · intro kv hkv hkfin
    rw [worker_release_forwards hf] at hkv
    rcases (mem_updateFwd_nodup hnd hf).mp hkv with ⟨_, hmem⟩ | heq
    · exact hInv.fin_status kv hmem hkfin
    · subst heq
      exact ⟨hs1, hs2⟩

theorem inv_stop_begin {s : PFState} {fid : Nat} {f : ForwardInfo}
    (hInv : Inv s) (hf : getFwd s fid = some f) (hst : f.status = .running)
    (hl : s.stop_inflight = none) :
    Inv (stop_begin s fid) := by
  have hnd := hInv.keys_nodup
  have hfu : f.wReleased = false :=
    hInv.nonterm_unrel (fid, f) (getFwd_mem hf) (by rw [hst]; rfl)
  have hff : f.wFinished = false := by
    by_contra hc
    rw [Bool.not_eq_false] at hc
    exact (hInv.fin_status (fid, f) (getFwd_mem hf) hc).2 hst
  constructor
  · show ((updateFwd s fid
        (fun g => { g with status := FwdStatus.stopping })).forwards.map (·.1)).Nodup
    rw [updateFwd_keys]
    exact hnd
  · intro kv hkv
    exact keys_le_update hInv.keys_le kv
      (show kv ∈ (updateFwd s fid
        (fun g => { g with status := FwdStatus.stopping })).forwards from hkv)
  · exact hInv.resv_nodup
  · intro kv hkv hrel
    rcases (mem_updateFwd_nodup hnd hf).mp
        (show kv ∈ (updateFwd s fid (fun g => { g with status := .stopping })).forwards
          from hkv) with ⟨_, hmem⟩ | heq
    · exact hInv.resv_mem kv hmem hrel
    · rw [heq] at hrel ⊢
      exact hInv.resv_mem (fid, f) (getFwd_mem hf) hrel
  · exact List.Nodup.sublist
      (show List.Sublist (uports (stop_begin s fid)) (uports s) from
        @uports_updateFwd_sub s fid (fun g => { g with status := FwdStatus.stopping })
          (fun _ => rfl) (fun _ h => h))
      hInv.uports_nodup
  · intro kv hkv hnt
    rcases (mem_updateFwd_nodup hnd hf).mp
        (show kv ∈ (updateFwd s fid (fun g => { g with status := .stopping })).forwards
          from hkv) with ⟨_, hmem⟩ | heq
    · exact hInv.nonterm_unrel kv hmem hnt
    · rw [heq]
      exact hfu
  · intro kv hkv hstp
    rcases (mem_updateFwd_nodup hnd hf).mp
        (show kv ∈ (updateFwd s fid (fun g => { g with status := .stopping })).forwards
          from hkv) with ⟨hne, hmem⟩ | heq
    · have := hInv.stopping_infl kv hmem hstp
      rw [hl] at this
      exact Option.noConfusion this
    · subst heq
      rfl
  · intro kv hkv hkfin
    rcases (mem_updateFwd_nodup hnd hf).mp
        (show kv ∈ (updateFwd s fid (fun g => { g with status := .stopping })).forwards
          from hkv) with ⟨_, hmem⟩ | heq
    · exact hInv.fin_status kv hmem hkfin
    · subst heq
      have h2 : f.wFinished = true := hkfin
      rw [hff] at h2
      exact absurd h2 Bool.false_ne_true

theorem inv_stop_end {s : PFState} {fid : Nat} {now : Nat}
    (hInv : Inv s) (hl : s.stop_inflight = some fid) :
    Inv (stop_end now s fid) := by
  constructor
  · show ((updateFwd s fid (fun g =>
        { g with status := FwdStatus.stopped,
                 stopped_at := some now })).forwards.map (·.1)).Nodup
    rw [updateFwd_keys]
    exact hInv.keys_nodup
  · intro kv hkv
    exact keys_le_update hInv.keys_le kv
      (show kv ∈ (updateFwd s fid (fun g =>
        { g with status := FwdStatus.stopped,
                 stopped_at := some now })).forwards from hkv)
  · exact hInv.resv_nodup
  · intro kv hkv hrel
    rcases mem_updateFwd.mp
        (show kv ∈ (updateFwd s fid
            (fun g => { g with status := .stopped, stopped_at := some now })).forwards
          from hkv) with ⟨kv0, h0, he⟩
    by_cases hk : kv0.1 = fid
    · rw [he, if_pos hk] at hrel ⊢
      exact hInv.resv_mem kv0 h0 hrel
    · rw [he, if_neg hk] at hrel ⊢
      exact hInv.resv_mem kv0 h0 hrel
  · exact List.Nodup.sublist
      (show List.Sublist (uports (stop_end now s fid)) (uports s) from
        @uports_updateFwd_sub s fid (fun g =>
          { g with status := FwdStatus.stopped, stopped_at := some now })
          (fun _ => rfl) (fun _ h => h))
      hInv.uports_nodup
  · intro kv hkv hnt
    rcases mem_updateFwd.mp
        (show kv ∈ (updateFwd s fid
            (fun g => { g with status := .stopped, stopped_at := some now })).forwards
          from hkv) with ⟨kv0, h0, he⟩
    by_cases hk : kv0.1 = fid
    · rw [he, if_pos hk] at hnt
      exact absurd (show (false : Bool) = true from hnt) Bool.false_ne_true
    · rw [he, if_neg hk] at hnt ⊢
      exact hInv.nonterm_unrel kv0 h0 hnt
  · intro kv hkv hstp
    rcases mem_updateFwd.mp
        (show kv ∈ (updateFwd s fid
            (fun g => { g with status := .stopped, stopped_at := some now })).forwards
          from hkv) with ⟨kv0, h0, he⟩
    by_cases hk : kv0.1 = fid
    · rw [he, if_pos hk] at hstp
      exact absurd hstp (by simp)
    · rw [he, if_neg hk] at hstp
      have := hInv.stopping_infl kv0 h0 hstp
      rw [hl] at this
      exact absurd (Option.some.inj this).symm hk
  · intro kv hkv hkfin
    rcases mem_updateFwd.mp
        (show kv ∈ (updateFwd s fid
            (fun g => { g with status := .stopped, stopped_at := some now })).forwards
          from hkv) with ⟨kv0, h0, he⟩
    by_cases hk : kv0.1 = fid
    · rw [he, if_pos hk]
      exact ⟨by simp, by simp⟩
    · rw [he, if_neg hk] at hkfin ⊢
      exact hInv.fin_status kv0 h0 hkfin

end GpuServerManager

namespace GpuServerManager

theorem inv_mk_forward {bindOk : Nat → Bool} {now : Nat} {s : PFState}
    {sn nm tt : String} {rp p : Nat}
    (hInv : Inv s) (hav : is_port_available bindOk s p = true) :
    Inv (mk_forward now { s with reserved_ports := p :: s.reserved_ports }
      sn nm rp p tt).2 := by
  rw [is_port_available_true_iff] at hav
  obtain ⟨hnres, -, -⟩ := hav
  constructor
  · show ((s.forwards ++ [(s.forward_counter + 1,
        ({ server_name := sn, name := nm, remote_port := rp, local_port := p,
           tool_type := tt, status := FwdStatus.starting, created_at := now,
           stopped_at := none, error := none, wFinished := false,
           wReleased := false } : ForwardInfo))]).map (·.1)).Nodup
    rw [List.map_append, List.nodup_append]
    refine ⟨hInv.keys_nodup, by simp, ?_⟩
    intro a ha hb
    simp only [List.map_cons, List.map_nil, List.mem_singleton] at hb
    rcases List.mem_map.mp ha with ⟨kv, hkv, hk⟩
    have := hInv.keys_le kv hkv
    omega
  · intro kv hkv
    rcases List.mem_append.mp hkv with hm | hm
    · have := hInv.keys_le kv hm
      show kv.1 ≤ s.forward_counter + 1
      omega
    · simp only [List.mem_singleton] at hm
      rw [hm]
      exact Nat.le_refl _
  · exact List.nodup_cons.mpr ⟨hnres, hInv.resv_nodup⟩
  · intro kv hkv hrel
    rcases List.mem_append.mp hkv with hm | hm
    · exact List.mem_cons_of_mem p (hInv.resv_mem kv hm hrel)
    · simp only [List.mem_singleton] at hm
      rw [hm]
      exact List.mem_cons_self p s.reserved_ports
  · have he : uports (mk_forward now { s with reserved_ports := p :: s.reserved_ports }
        sn nm rp p tt).2 = uports s ++ [p] := by
      unfold uports mk_forward
      rw [List.filter_append, List.map_append]
      rfl
    rw [he, List.nodup_append]
    refine ⟨hInv.uports_nodup, by simp, ?_⟩
    intro u hu hup
    simp only [List.mem_singleton] at hup
    rcases mem_uports.mp hu with ⟨kv, hkv, hkrel, hkp⟩
    exact hnres (hup ▸ hkp ▸ hInv.resv_mem kv hkv hkrel)
  · intro kv hkv hnt
    rcases List.mem_append.mp hkv with hm | hm
    · exact hInv.nonterm_unrel kv hm hnt
    · simp only [List.mem_singleton] at hm
      rw [hm]
  · intro kv hkv hstp
    rcases List.mem_append.mp hkv with hm | hm
    · exact hInv.stopping_infl kv hm hstp
    · simp only [List.mem_singleton] at hm
      rw [hm] at hstp
      exact absurd hstp (by simp)
  · intro kv hkv hkfin
    rcases List.mem_append.mp hkv with hm | hm
    · exact hInv.fin_status kv hm hkfin
    · simp only [List.mem_singleton] at hm
      rw [hm] at hkfin
      exact absurd (show (false : Bool) = true from hkfin) Bool.false_ne_true

theorem inv_init : Inv pfInit := by
  constructor <;> simp [pfInit, uports]

theorem inv_preserved {bindOk : Nat → Bool} {s s2 : PFState} (hInv : Inv s)
    (hstep : Step bindOk s s2) : Inv s2 := by
  cases hstep with
  | createAuto now sn nm tt rp _ hl =>
    cases hres : find_and_reserve_port bindOk s with
    | none =>
      rw [create_forward_auto_none hres]
      exact hInv
    | some ps =>
      obtain ⟨p, s1⟩ := ps
      obtain ⟨hav, -, -, -⟩ := find_and_reserve_port_some hres
      rw [create_forward_auto_some hres]
      exact inv_mk_forward hInv hav
  | createExplicit now sn nm tt rp p _ hl =>
    by_cases hav : is_port_available bindOk s p = true
    · rw [create_forward_explicit_avail hav]
      exact inv_mk_forward hInv hav
    · rw [Bool.not_eq_true] at hav
      rw [create_forward_explicit_unavail hav]
      exact hInv
  | setRunning _ fid f hf hst => exact inv_set_running hInv hf hst
  | wError msg _ fid f hf hfin => exact inv_w_error hInv hf
  | wFinalize now _ fid f hf hst hfin => exact inv_w_finalize hInv hf hst
  | wRelease _ fid f hf hfin hrel hl => exact inv_w_release hInv hf hfin hrel hl
  | stopBegin _ fid f hf hst hl => exact inv_stop_begin hInv hf hst hl
  | stopEnd now _ fid hl => exact inv_stop_end hInv hl
  | stopNotRunning now _ fid f hf hst hl => exact hInv
  | deleteAbsent _ fid hf hl => exact hInv

end GpuServerManager

namespace GpuServerManager

theorem create_seq_spec (bindOk : Nat → Bool) (now : Nat) (sn nm tt : String)
    (rp : Nat) :
    ∀ (n : Nat) (s : PFState),
      (∀ o ∈ (create_seq bindOk now sn nm tt rp n s).1, ∀ p, o = some p →
        PortRange.FORWARD_START ≤ p ∧ p ∉ s.reserved_ports) ∧
      ((∀ o ∈ (create_seq bindOk now sn nm tt rp n s).1, o.isSome = true) →
        (create_seq bindOk now sn nm tt rp n s).1.Nodup) := by
  intro n
  induction n with
  | zero =>
    intro s
    constructor
    · intro o ho
      simp [create_seq] at ho
    · intro _
      simp [create_seq]
  | succ n ih =>
    intro s
    cases hscan : scan_ports bindOk s with
    | none =>
      have hr2 : (create_forward bindOk now s sn nm rp none tt).2 = s := by
        rw [create_forward_auto_none (by unfold find_and_reserve_port; rw [hscan])]
      have hseq : create_seq bindOk now sn nm tt rp (n + 1) s =
          ((none : Option Nat) :: (create_seq bindOk now sn nm tt rp n s).1,
           (create_seq bindOk now sn nm tt rp n s).2) := by
        show ((scan_ports bindOk s) ::
          (create_seq bindOk now sn nm tt rp n
            (create_forward bindOk now s sn nm rp none tt).2).1,
          (create_seq bindOk now sn nm tt rp n
            (create_forward bindOk now s sn nm rp none tt).2).2) = _
        rw [hscan, hr2]
      constructor
      · intro o ho p hop
        rw [hseq] at ho
        rcases List.mem_cons.mp ho with he | hm
        · rw [he] at hop
          exact Option.noConfusion hop
        · exact (ih s).1 o hm p hop
      · intro hall
        rw [hseq] at hall
        have := hall none (List.mem_cons_self _ _)
        simp at this
    | some p =>
      have hfr : find_and_reserve_port bindOk s =
          some (p, { s with reserved_ports := p :: s.reserved_ports }) := by
        unfold find_and_reserve_port
        rw [hscan]
      have hs2 : (create_forward bindOk now s sn nm rp none tt).2.reserved_ports =
          p :: s.reserved_ports := by
        rw [create_forward_auto_some hfr]
      have hseq : create_seq bindOk now sn nm tt rp (n + 1) s =
          (some p :: (create_seq bindOk now sn nm tt rp n
            (create_forward bindOk now s sn nm rp none tt).2).1,
           (create_seq bindOk now sn nm tt rp n
            (create_forward bindOk now s sn nm rp none tt).2).2) := by
        show ((scan_ports bindOk s) :: _, _) = _
        rw [hscan]
      obtain ⟨havail, hstart, -⟩ := scan_ports_some hscan
      have hnotres : p ∉ s.reserved_ports :=
        ((is_port_available_true_iff bindOk s p).mp havail).1
      constructor
      · intro o ho p' hop
        rw [hseq] at ho
        rcases List.mem_cons.mp ho with he | hm
        · rw [he] at hop
          have hpp : p = p' := Option.some.inj hop
          exact ⟨hpp ▸ hstart, hpp ▸ hnotres⟩
        · have h2 := (ih (create_forward bindOk now s sn nm rp none tt).2).1 o hm p' hop
          refine ⟨h2.1, fun hc => ?_⟩
          have h3 := h2.2
          rw [hs2] at h3
          exact h3 (List.mem_cons_of_mem p hc)
      · intro hall
        rw [hseq] at hall ⊢
        refine List.nodup_cons.mpr
          ⟨?_, (ih (create_forward bindOk now s sn nm rp none tt).2).2
            (fun o ho => hall o (List.mem_cons_of_mem _ ho))⟩
        intro hmem
        have h2 := (ih (create_forward bindOk now s sn nm rp none tt).2).1
          (some p) hmem p rfl
        have h3 := h2.2
        rw [hs2] at h3
        exact h3 (List.mem_cons_self p s.reserved_ports)

/-- Claim C4: the port-uniqueness invariant — no two non-terminal tunnel
descriptors share a local port — holds of the initial manager and is
preserved by every modelled operation (both `create_forward` paths, the
worker's transitions, the two halves of `stop_forward`, and the
terminating `delete_forward`/`stop_forward` no-ops); moreover any
back-to-back sequence of automatic-port `create_forward` calls that all
succeed yields pairwise-distinct local ports, all at least
`PortRange.FORWARD_START`. -/
theorem c4_port_invariant (bindOk : Nat → Bool) (now : Nat) (sn nm tt : String)
    (rp : Nat) (s : PFState) (hInv : Inv s) :
    Inv pfInit ∧
    (∀ s2, Step bindOk s s2 → Inv s2 ∧ (ntports s2).Nodup) ∧
    (∀ n, (∀ o ∈ (create_seq bindOk now sn nm tt rp n s).1, o.isSome = true) →
      (create_seq bindOk now sn nm tt rp n s).1.Nodup ∧
      (∀ o ∈ (create_seq bindOk now sn nm tt rp n s).1, ∀ p, o = some p →
        PortRange.FORWARD_START ≤ p)) := by
  refine ⟨inv_init, fun s2 hstep => ?_, fun n hall => ?_⟩
  · have h2 := inv_preserved hInv hstep
    exact ⟨h2, ntports_nodup_of_inv h2⟩
  · exact ⟨(create_seq_spec bindOk now sn nm tt rp n s).2 hall,
      fun o ho p hop => ((create_seq_spec bindOk now sn nm tt rp n s).1 o ho p hop).1⟩

/-- Claim C4 witness: from the empty manager, one automatic create
preserves the invariant, and two successive automatic creates yield
distinct ports at or above the base port. -/
theorem c4_witness :
    (Inv (create_forward (fun _ => true) 0 pfInit "gpu" "tb" 6006 none "custom").2 ∧
      (ntports (create_forward (fun _ => true) 0 pfInit "gpu" "tb" 6006
        none "custom").2).Nodup) ∧
    ((create_seq (fun _ => true) 0 "gpu" "tb" "custom" 6006 2 pfInit).1.Nodup ∧
      (∀ o ∈ (create_seq (fun _ => true) 0 "gpu" "tb" "custom" 6006 2 pfInit).1,
        ∀ p, o = some p → PortRange.FORWARD_START ≤ p)) :=
  ⟨(c4_port_invariant (fun _ => true) 0 "gpu" "tb" "custom" 6006 pfInit
      inv_init).2.1 _ (Step.createAuto 0 "gpu" "tb" "custom" 6006 pfInit rfl),
   (c4_port_invariant (fun _ => true) 0 "gpu" "tb" "custom" 6006 pfInit
      inv_init).2.2 2 (by decide)⟩

end GpuServerManager
